import Mathlib

/-!
Shallow embedding of the storage abstraction layer (`storage.go`): the
key/path translator, the three backends (local filesystem, OSS, MinIO)
over an abstract object store, paginated listing, batch operations and
the backend selector, together with theorems settling the stated
claims about them.

String manipulation is modelled over the character list underlying a
`String`, which the kernel evaluates directly.
-/

namespace StorageModel

/-- Byte sequences: object contents are modelled as lists of byte values. -/
abbrev Bytes := List Nat

/-- Splits a character list on the `/` separator, accumulating the
current component in reverse. -/
def splitSlashAux : List Char → List Char → List String
  | [], acc => [String.mk acc.reverse]
  | c :: cs, acc =>
    if c = '/' then String.mk acc.reverse :: splitSlashAux cs []
    else splitSlashAux cs (c :: acc)

/-- Splits a string on the `/` separator (as Go `strings.Split(s, "/")`). -/
def splitSlash (s : String) : List String :=
  splitSlashAux s.data []

/-- Joins a list of components with the `/` separator. -/
def joinSlash : List String → String
  | [] => ""
  | [s] => s
  | s :: rest => s ++ "/" ++ joinSlash rest

/-- Whether the first character of a string is the separator. -/
def headIsSlash (s : String) : Bool :=
  match s.data with
  | c :: _ => c == '/'
  | [] => false

/-- Whether the last character of a string is the separator. -/
def lastIsSlash (s : String) : Bool :=
  match s.data.getLast? with
  | some c => c == '/'
  | none => false

/-- Whether `pre` is a prefix of `s` (as Go `strings.HasPrefix(s, pre)`). -/
def strHasPref (s pre : String) : Bool :=
  pre.data.isPrefixOf s.data

/-- Drops the first `n` characters of a string (Go slicing `s[n:]` for
single-byte characters). -/
def strDrop (s : String) (n : Nat) : String :=
  String.mk (s.data.drop n)

/-- One step of the component/stack processing underlying Go's
`path/filepath.Clean` (unix separator): empty and `.` components are
dropped, `..` backtracks (or is kept at the front of a relative path),
anything else is pushed.  The stack is kept reversed. -/
def goCleanPush (rooted : Bool) (stack : List String) (part : String) : List String :=
  if part = "" || part = "." then stack
  else if part = ".." then
    match stack with
    | [] => if rooted then [] else [".."]
    | top :: rest => if top = ".." then part :: stack else rest
  else part :: stack

/-- Model of Go `path/filepath.Clean` restricted to the unix separator:
split on the separator and process components against a stack, the
standard equivalent of the lazybuf algorithm of the Go standard
library.  An empty path cleans to `.`; a rooted path keeps its leading
separator. -/
def goClean (p : String) : String :=
  if p = "" then "."
  else
    let rooted := headIsSlash p
    let stack := (splitSlash p).foldl (goCleanPush rooted) []
    let body := joinSlash stack.reverse
    if rooted then (if body = "" then "/" else "/" ++ body)
    else (if body = "" then "." else body)

/-- Model of Go `path/filepath.Join` on two elements: starting from the
first non-empty element the elements are joined with the separator and
the result is cleaned; two empty elements join to the empty string.
In particular `goClean` strips any trailing separator from the result. -/
def goJoin2 (a b : String) : String :=
  if a ≠ "" then goClean (a ++ "/" ++ b)
  else if b ≠ "" then goClean b
  else ""

/-- `ensureOSSDirPath` from the source: appends `/` when the path is
non-empty and does not already end in it. -/
def ensureOSSDirPath (path : String) : String :=
  if path.data.length > 0 && !(lastIsSlash path) then path ++ "/" else path

/-- `isDirectoryPlaceholder` from the source: a key is the directory's
placeholder-identity key when it equals the prefix or the prefix plus
the separator. -/
def isDirectoryPlaceholder (key dirPath : String) : Bool :=
  key == dirPath || key == dirPath ++ "/"

/-- Errors surfaced by the storage operations. -/
inductive GoError where
  | notFound
  | ioError
  | remote (msg : String)
deriving DecidableEq, Repr

/-- `FileMetadata` from the source.  The modification time is modelled
as an integer instant whose zero value is Go's zero `time.Time`. -/
structure FileMetadata where
  name : String
  size : Int
  modTime : Int
  isDir : Bool
  mimeType : String
deriving DecidableEq, Repr

/-- The durable state of a backing store: a map from backend-native key
(full path, respectively object key) to object content.  Both the local
filesystem's file contents and the flat stores' objects are modelled
this way. -/
def Store := String → Option Bytes

/-- The store with no objects. -/
def emptyStore : Store := fun _ => none

/-- Writing (creating or truncating) the object at `key`. -/
def storePut (st : Store) (key : String) (b : Bytes) : Store :=
  fun k => if k = key then some b else st k

/-- What reading a returned byte stream to the end ultimately yields:
either the bytes or the error the producer closed the stream with. -/
inductive StreamRead where
  | bytes (b : Bytes)
  | failed (e : GoError)
deriving DecidableEq, Repr

--################## local filesystem backend #####################

/-- `LocalStorage.Upload`: joins the base path with the logical path,
creates the parent directories and writes the reader's bytes to the
file at the joined path. -/
def localUpload (st : Store) (basePath filePath : String) (b : Bytes) : Store :=
  storePut st (goJoin2 basePath filePath) b

/-- `LocalStorage.Download`: returns a pipe reader immediately together
with a nil call-level error (first component always `none`); a
concurrent producer opens the file and either streams its bytes into
the pipe or closes the pipe with the open error, which the consumer
observes on read (second component). -/
def localDownload (st : Store) (basePath filePath : String) :
    Option GoError × StreamRead :=
  (none,
    match st (goJoin2 basePath filePath) with
    | some b => .bytes b
    | none => .failed .notFound)

/-- `os.File.Seek` with whence `io.SeekStart` on a file with content
`c`: fails on a negative offset, otherwise positions the handle so the
remaining content is `c` without its first `offset` bytes (seeking past
the end succeeds and leaves nothing to read). -/
def goSeekStart (c : Bytes) (offset : Int) : Except GoError Bytes :=
  if offset < 0 then .error .ioError else .ok (c.drop offset.toNat)

/-- `io.LimitReader`: reading it to the end yields at most `size` bytes
of the wrapped content. -/
def ioLimitReader (c : Bytes) (size : Int) : Bytes :=
  c.take size.toNat

/-- `LocalStorage.DownloadRange` on a file with content `c`: the
producer seeks to `offset`, wraps the file in a limit reader of `size`
and streams the result into the pipe; a seek failure is delivered
through the stream. -/
def localDownloadRange (c : Bytes) (offset size : Int) : StreamRead :=
  match goSeekStart c offset with
  | .error e => .failed e
  | .ok rest => .bytes (ioLimitReader rest size)

/-- `LocalStorage.UpdateMetadata`: the returned value is the time
handed to `os.Chtimes` when the call touches the file, `none` when the
file is left untouched.  The source guards the `Chtimes` call with
`metadata.ModTime.IsZero()`. -/
def localUpdateMetadata (metadata : FileMetadata) : Option Int :=
  if metadata.modTime = 0 then some metadata.modTime else none

--################## flat-store backends (OSS, MinIO) #####################

/-- `OSSStorage.Upload`: `PutObject` at the base-dir-joined key. -/
def ossUpload (st : Store) (baseDir filePath : String) (b : Bytes) : Store :=
  storePut st (goJoin2 baseDir filePath) b

/-- `OSSStorage.Download`: `GetObject` at the base-dir-joined key; the
call itself fails when the object is absent. -/
def ossDownload (st : Store) (baseDir filePath : String) : Except GoError Bytes :=
  match st (goJoin2 baseDir filePath) with
  | some b => .ok b
  | none => .error .notFound

/-- `MinIOStorage.Upload`: `PutObject` at the base-dir-joined key. -/
def minioUpload (st : Store) (baseDir filePath : String) (b : Bytes) : Store :=
  storePut st (goJoin2 baseDir filePath) b

/-- `MinIOStorage.Download`: `GetObject` at the base-dir-joined key. -/
def minioDownload (st : Store) (baseDir filePath : String) : Except GoError Bytes :=
  match st (goJoin2 baseDir filePath) with
  | some b => .ok b
  | none => .error .notFound

/-- The inclusive byte range `OSSStorage.DownloadRange` requests via
`oss.Range(offset, offset+size-1)`. -/
def ossDownloadRangeReq (offset size : Int) : Int × Int :=
  (offset, offset + size - 1)

/-- The inclusive byte range `MinIOStorage.DownloadRange` requests via
`GetObjectOptions.SetRange(offset, offset+size-1)`. -/
def minioDownloadRangeReq (offset size : Int) : Int × Int :=
  (offset, offset + size - 1)

/-- The bytes of content `c` selected by an HTTP-style inclusive byte
range `[lo, hi]`. -/
def httpRangeBytes (c : Bytes) (lo hi : Int) : Bytes :=
  (c.drop lo.toNat).take (hi - lo + 1).toNat

/-- `OSSStorage.Delete`: the backend-native key the underlying
`DeleteObject` call targets for argument `filePath` — the source joins
the base directory onto the argument unconditionally. -/
def ossDeleteKey (baseDir filePath : String) : String :=
  goJoin2 baseDir filePath

/-- `MinIOStorage.Delete`: the backend-native key the underlying
`RemoveObject` call targets for argument `filePath`. -/
def minioDeleteKey (baseDir filePath : String) : String :=
  goJoin2 baseDir filePath

/-- The listing prefix `OSSStorage.DeleteDir`, `OSSStorage.ListDir` and
their MinIO counterparts compute for a directory path: the trailing
separator is ensured first and the join with the base directory then
strips it again. -/
def flatDirFullKey (baseDir dirPath : String) : String :=
  goJoin2 baseDir (ensureOSSDirPath dirPath)

/-- `OSSStorage.DeleteDir` applied to one page of listed keys: the keys
the underlying `DeleteObject` calls target.  A listed key survives the
prefix-and-placeholder filter and is then passed to `OSSStorage.Delete`,
which joins the base directory onto it again. -/
def ossDeleteDirTargets (baseDir dirPath : String) (listed : List String) : List String :=
  let fullKey := flatDirFullKey baseDir dirPath
  (listed.filter (fun k => strHasPref k fullKey && !isDirectoryPlaceholder k fullKey)).map
    (fun k => ossDeleteKey baseDir k)

/-- `MinIOStorage.DeleteDir` applied to the listed keys: every listed
key is passed to `MinIOStorage.Delete` with no placeholder filtering. -/
def minioDeleteDirTargets (baseDir _dirPath : String) (listed : List String) : List String :=
  listed.map (fun k => minioDeleteKey baseDir k)

/-- The backend-native key at which `OSSStorage.CreateDir` uploads the
directory placeholder object. -/
def ossCreateDirKey (baseDir dirPath : String) : String :=
  flatDirFullKey baseDir dirPath

/-- The backend-native key at which `MinIOStorage.CreateDir` uploads the
directory placeholder (it delegates to `MinIOStorage.Upload` with the
separator-ensured directory path, which joins the base directory). -/
def minioCreateDirKey (baseDir dirPath : String) : String :=
  goJoin2 baseDir (ensureOSSDirPath dirPath)

/-- `OSSStorage.CreateDir`: when the placeholder key is absent, uploads
a zero-length object (`strings.NewReader("")`) at it. -/
def ossCreateDir (st : Store) (baseDir dirPath : String) : Store :=
  let fullKey := ossCreateDirKey baseDir dirPath
  match st fullKey with
  | some _ => st
  | none => storePut st fullKey []

/-- `MinIOStorage.CreateDir`: when `StatObject` on the placeholder key
fails, uploads a zero-length object through `MinIOStorage.Upload`. -/
def minioCreateDir (st : Store) (baseDir dirPath : String) : Store :=
  let fullKey := minioCreateDirKey baseDir dirPath
  match st fullKey with
  | some _ => st
  | none => minioUpload st baseDir (ensureOSSDirPath dirPath) []

--################## OSS paginated listing #####################

/-- One object property record of an OSS listing page. -/
structure OSSObject where
  key : String
  size : Int
  lastModified : Int
deriving DecidableEq, Repr

/-- One `ListObjects` response: the page's objects and its continuation
token `NextMarker`. -/
structure ObjectListing where
  objects : List OSSObject
  nextMarker : String
deriving DecidableEq, Repr

/-- The entries `OSSStorage.ListDir` accumulates from one page: listed
objects whose key has the directory's full-key prefix and is not the
placeholder-identity key, converted to metadata with the prefix
stripped from the name, `IsDir` fixed to `false` and the MIME type
fixed to the generic value. -/
def ossPageMetas (fullKey : String) (objs : List OSSObject) : List FileMetadata :=
  (objs.filter (fun o => strHasPref o.key fullKey && !isDirectoryPlaceholder o.key fullKey)).map
    (fun o =>
      { name := strDrop o.key fullKey.data.length
        size := o.size
        modTime := o.lastModified
        isDir := false
        mimeType := "application/octet-stream" })

/-- The paginated listing loop of `OSSStorage.ListDir`.  The store's
response to a request with the fixed prefix and a given marker is the
function `fetch` (the first request carries no marker, modelled as
marker `""`).  The loop appends each page's surviving entries, stops
when a page has fewer than 1000 objects, and otherwise continues with
the marker set to the page's `NextMarker`.  `fuel` bounds the number of
requests: a run that does not stop within `fuel` pages is `none`
(models non-termination of the source loop). -/
def ossListDirLoop (fetch : String → ObjectListing) (fullKey : String) :
    String → Nat → Option (List FileMetadata)
  | _, 0 => none
  | marker, fuel + 1 =>
    let listing := fetch marker
    let metas := ossPageMetas fullKey listing.objects
    if listing.objects.length < 1000 then some metas
    else
      match ossListDirLoop fetch fullKey listing.nextMarker fuel with
      | none => none
      | some rest => some (metas ++ rest)

/-- `OSSStorage.ListDir`: ensures the separator on the directory path,
joins the base directory and runs the paginated listing loop starting
with an empty marker. -/
def ossListDir (fetch : String → ObjectListing) (baseDir dirPath : String)
    (fuel : Nat) : Option (List FileMetadata) :=
  ossListDirLoop fetch (flatDirFullKey baseDir dirPath) "" fuel

/-- The sequence of markers the loop requests with: the start marker,
then each page's `NextMarker`. -/
def markerChain (fetch : String → ObjectListing) (m : String) : Nat → String
  | 0 => m
  | i + 1 => (fetch (markerChain fetch m i)).nextMarker

--################## facade / backend selector #####################

/-- `LocalStorageConfig` from the source. -/
structure LocalStorageConfig where
  basePath : String
deriving DecidableEq, Repr

/-- `OSSStorageConfig` from the source. -/
structure OSSStorageConfig where
  endpoint : String
  accessKeyID : String
  accessKeySecret : String
  bucket : String
  baseDir : String
deriving DecidableEq, Repr

/-- `MinIOStorageConfig` from the source. -/
structure MinIOStorageConfig where
  endpoint : String
  accessKeyID : String
  accessKeySecret : String
  useSSL : Bool
  bucket : String
  baseDir : String
deriving DecidableEq, Repr

/-- `Types` from the source: the configuration the selector dispatches
on.  Modes are the source's strings, with `""` for unset. -/
structure Types where
  mode : String
  assignMode : String
  maxSize : Int
  localCfg : LocalStorageConfig
  minio : MinIOStorageConfig
  oss : OSSStorageConfig
deriving DecidableEq, Repr

/-- The `Types` value with every field unset. -/
def emptyTypes : Types :=
  { mode := ""
    assignMode := ""
    maxSize := 0
    localCfg := { basePath := "" }
    minio := { endpoint := "", accessKeyID := "", accessKeySecret := "", useSSL := false,
               bucket := "", baseDir := "" }
    oss := { endpoint := "", accessKeyID := "", accessKeySecret := "", bucket := "", baseDir := "" } }

/-- `StorageOption` from the source: a mutation of the configuration. -/
def StorageOption := Types → Types

/-- `WithMode`. -/
def withMode (mode : String) : StorageOption :=
  fun s => { s with mode := mode }

/-- `WithLocalConfig`: sets the local configuration and the mode. -/
def withLocalConfig (config : LocalStorageConfig) : StorageOption :=
  fun s => { s with localCfg := config, mode := "local" }

/-- `DefaultStorageOptions`: local mode pointed at the process-wide
temporary directory (`os.TempDir()`, passed in as `tempDir`). -/
def defaultStorageOptions (tempDir : String) : List StorageOption :=
  [withMode "local", withLocalConfig { basePath := tempDir }]

/-- A constructed backend instance, tagged by kind. -/
inductive StorageInstance where
  | localStore (c : LocalStorageConfig)
  | ossStore (c : OSSStorageConfig)
  | minioStore (c : MinIOStorageConfig)
deriving DecidableEq, Repr

/-- `Types.GetStorage`: applies the options, inherits `mode` into an
unset `assignMode`, and dispatches on `assignMode` after validating the
selected config's required fields; a validation failure yields
`("", none)`.  When both `mode` and `assignMode` are unset the source
rebinds its local `opts` variable to `DefaultStorageOptions()` after
the options have already been applied, which changes nothing, so the
configuration is left as it is in that branch. -/
def getStorage (_tempDir : String) (s : Types) (opts : List StorageOption) :
    String × Option StorageInstance :=
  let s1 := opts.foldl (fun acc o => o acc) s
  let s2 :=
    if s1.assignMode = "" ∧ s1.mode ≠ "" then { s1 with assignMode := s1.mode }
    else s1
  if s2.assignMode = "minio" then
    if s2.minio.baseDir = "" ∨ s2.minio.endpoint = "" ∨ s2.minio.accessKeyID = "" ∨
        s2.minio.accessKeySecret = "" ∨ s2.minio.bucket = "" then ("", none)
    else (s2.minio.baseDir, some (.minioStore s2.minio))
  else if s2.assignMode = "oss" then
    if s2.oss.baseDir = "" ∨ s2.oss.endpoint = "" ∨ s2.oss.accessKeyID = "" ∨
        s2.oss.accessKeySecret = "" ∨ s2.oss.bucket = "" then ("", none)
    else (s2.oss.baseDir, some (.ossStore s2.oss))
  else
    if s2.localCfg.basePath = "" then ("", none)
    else (s2.localCfg.basePath, some (.localStore s2.localCfg))

--################## batch coordinator #####################

/-- `BatchDelete` (same loop in all three backends): invokes the
single-item delete on each path in order and stops at the first
failure.  The first component is the trace of paths the single-item
operation was invoked on; the second is the returned error, `none` on
full success. -/
def batchDelete (del : String → Option GoError) :
    List String → List String × Option GoError
  | [] => ([], none)
  | p :: ps =>
    match del p with
    | some e => ([p], some e)
    | none =>
      let r := batchDelete del ps
      (p :: r.1, r.2)

/-- `BatchUpload` (same loop in all three backends) over the entries of
the input map in the call's iteration order: invokes the single-item
upload on each entry and stops at the first failure.  The first
component is the trace of paths uploaded; the second the returned
error. -/
def batchUpload (up : String → Bytes → Option GoError) :
    List (String × Bytes) → List String × Option GoError
  | [] => ([], none)
  | (p, b) :: fs =>
    match up p b with
    | some e => ([p], some e)
    | none =>
      let r := batchUpload up fs
      (p :: r.1, r.2)

/-- Outcome of a `BatchDownload` call over streams of type `S`:
the trace of paths the single-item download was invoked on, the streams
closed during cleanup, the returned result map (as an association list
in insertion order) and the returned error. -/
structure BatchDownloadOut (S : Type) where
  invoked : List String
  closed : List S
  result : Option (List (String × S))
  failure : Option GoError
deriving DecidableEq, Repr

/-- The loop of `BatchDownload` (same in all three backends), carrying
the `results` map accumulated so far: on a failure it closes every
reader already stored in `results` and returns the error with a nil
map; on success it records the reader and continues. -/
def batchDownloadGo {S : Type} (dl : String → Except GoError S)
    (acc : List (String × S)) : List String → BatchDownloadOut S
  | [] => { invoked := [], closed := [], result := some acc, failure := none }
  | p :: ps =>
    match dl p with
    | .error e => { invoked := [p], closed := acc.map Prod.snd, result := none, failure := some e }
    | .ok r =>
      let rest := batchDownloadGo dl (acc ++ [(p, r)]) ps
      { rest with invoked := p :: rest.invoked }

/-- `BatchDownload`: runs the loop with an empty `results` map. -/
def batchDownload {S : Type} (dl : String → Except GoError S)
    (paths : List String) : BatchDownloadOut S :=
  batchDownloadGo dl [] paths

--################## theorems #####################

/-- C1: uploading bytes `b` to logical path `p` and then downloading
`p` yields exactly `b` on every backend — the local stream produces
`b`, and the OSS and MinIO `GetObject` calls return `b`. -/
theorem c1_upload_download_roundtrip (st : Store) (base p : String) (b : Bytes) :
    (localDownload (localUpload st base p b) base p).2 = .bytes b
    ∧ ossDownload (ossUpload st base p b) base p = .ok b
    ∧ minioDownload (minioUpload st base p b) base p = .ok b := by
  refine ⟨?_, ?_, ?_⟩ <;>
    simp [localDownload, localUpload, ossDownload, ossUpload, minioDownload, minioUpload,
      storePut]

/-- C2: for `0 ≤ offset`, `0 ≤ size` and `offset + size ≤ len c`, the
local ranged download yields exactly the bytes `c[offset, offset+size)`
(whose count is exactly `size`), and the flat-store backends request
the inclusive byte range `[offset, offset+size-1]`, whose bytes are
that same slice. -/
theorem c2_download_range (c : Bytes) (offset size : Int)
    (h0 : 0 ≤ offset) (_h1 : 0 ≤ size) (h2 : offset + size ≤ (c.length : Int)) :
    localDownloadRange c offset size = .bytes ((c.drop offset.toNat).take size.toNat)
    ∧ ((c.drop offset.toNat).take size.toNat).length = size.toNat
    ∧ ossDownloadRangeReq offset size = (offset, offset + size - 1)
    ∧ minioDownloadRangeReq offset size = (offset, offset + size - 1)
    ∧ httpRangeBytes c offset (offset + size - 1) = (c.drop offset.toNat).take size.toNat := by
  refine ⟨?_, ?_, rfl, rfl, ?_⟩
  · simp [localDownloadRange, goSeekStart, ioLimitReader, not_lt.mpr h0]
  · rw [List.length_take, List.length_drop]
    omega
  · unfold httpRangeBytes
    have h : offset + size - 1 - offset + 1 = size := by ring
    rw [h]

/-- Witness for C2 at `c = [10,11,12,13]`, `offset = 1`, `size = 2`. -/
theorem c2_download_range_witness :
    localDownloadRange [10, 11, 12, 13] 1 2 = .bytes [11, 12]
    ∧ httpRangeBytes [10, 11, 12, 13] 1 (1 + 2 - 1) = [11, 12] := by
  have h := c2_download_range [10, 11, 12, 13] 1 2 (by decide) (by decide) (by decide)
  exact ⟨h.1.trans (by decide), h.2.2.2.2.trans (by decide)⟩

/-- C4 fails on the code: for base directory `base` and directory `d`,
a listed key `base/d/f.txt` surviving the filter is passed to the
single-object delete wrapper, which joins the base directory onto it
again, so the targeted key is `base/base/d/f.txt`, not the listed key;
moreover the MinIO variant filters nothing, so the placeholder key is
targeted as well. -/
theorem c4_deletedir_targets_counterexample :
    ossDeleteDirTargets "base" "d" ["base/d/", "base/d/f.txt"] = ["base/base/d/f.txt"]
    ∧ minioDeleteDirTargets "base" "d" ["base/d/", "base/d/f.txt"]
        = ["base/base/d", "base/base/d/f.txt"]
    ∧ ("base/base/d/f.txt" : String) ≠ "base/d/f.txt" := by
  refine ⟨by decide, by decide, by decide⟩

/-- C5 fails on the code: `LocalStorage.UpdateMetadata` guards the
`Chtimes` call with `ModTime.IsZero()`, so a non-zero supplied time
leaves the file untouched and a zero supplied time rewrites the file
times (to the zero time). -/
theorem c5_update_metadata_inverted :
    localUpdateMetadata { name := "f", size := 0, modTime := 5, isDir := false, mimeType := "" }
      = none
    ∧ localUpdateMetadata { name := "f", size := 0, modTime := 0, isDir := false, mimeType := "" }
      = some 0 := by
  decide

/-- C6 counterexample: on a store with no file at the path, the local
`Download` call itself returns a nil error (first component `none`)
together with a stream; the `NotFound` failure is only observable by
reading the returned stream. -/
theorem c6_download_missing_counterexample :
    (localDownload emptyStore "base" "missing.txt").1 = none
    ∧ (localDownload emptyStore "base" "missing.txt").2 = .failed .notFound := by
  decide

/-- C6 amended: for every path naming no existing file, the local
`Download` call returns a stream and a nil call-level error, and the
first read of the returned stream fails with `NotFound`. -/
theorem c6_download_missing_amended (st : Store) (base p : String)
    (h : st (goJoin2 base p) = none) :
    localDownload st base p = (none, .failed .notFound) := by
  simp [localDownload, h]

/-- Witness for the amended C6 on the empty store. -/
theorem c6_download_missing_amended_witness :
    localDownload emptyStore "b" "x" = (none, .failed .notFound) :=
  c6_download_missing_amended emptyStore "b" "x" rfl

/-- C7 fails on the code: with both `mode` and `assignMode` unset and
no options, `GetStorage` rebinds only its dead local `opts` variable to
the defaults, so the empty local base path fails validation and no
backend is constructed; had the default options actually been applied,
a local backend at the temporary directory would have been returned. -/
theorem c7_get_storage_default_dead :
    getStorage "/tmp" emptyTypes [] = ("", none)
    ∧ getStorage "/tmp" emptyTypes (defaultStorageOptions "/tmp")
        = ("/tmp", some (.localStore { basePath := "/tmp" })) := by
  refine ⟨by decide, by decide⟩

/-- C9 fails on the code: for base directory `base` and directory `d`,
both flat backends upload the placeholder as a zero-length object, but
at key `base/d` — `filepath.Join` strips the trailing separator that
`ensureOSSDirPath` added, so the placeholder key does not end in the
path separator. -/
theorem c9_createdir_placeholder_counterexample :
    ossCreateDirKey "base" "d" = "base/d"
    ∧ minioCreateDirKey "base" "d" = "base/d"
    ∧ lastIsSlash "base/d" = false
    ∧ ossCreateDir emptyStore "base" "d" "base/d" = some []
    ∧ minioCreateDir emptyStore "base" "d" "base/d" = some [] := by
  refine ⟨by decide, by decide, by decide, by decide, by decide⟩

/-- The marker chain shifted by one request: chaining from the first
page's continuation token is the tail of chaining from the start. -/
theorem markerChain_shift (fetch : String → ObjectListing) (m : String) (i : Nat) :
    markerChain fetch ((fetch m).nextMarker) i = markerChain fetch m (i + 1) := by
  induction i with
  | zero => rfl
  | succ n ih => simp only [markerChain, ih]

/-- Splitting the concatenated survivors of pages `0..j+1` chained from
`m` into the first page's survivors and the survivors of the pages
chained from the first page's continuation token. -/
theorem flatten_range_shift (fetch : String → ObjectListing) (fullKey m : String) (j : Nat) :
    ((List.range (j + 1 + 1)).map
        (fun i => ossPageMetas fullKey (fetch (markerChain fetch m i)).objects)).flatten
    = ossPageMetas fullKey (fetch m).objects ++
      ((List.range (j + 1)).map
        (fun i => ossPageMetas fullKey
          (fetch (markerChain fetch ((fetch m).nextMarker) i)).objects)).flatten := by
  rw [List.range_succ_eq_map]
  simp only [List.map_cons, List.flatten_cons, List.map_map]
  congr 1
  congr 1
  congr 1
  funext i
  rw [Function.comp_apply, markerChain_shift]

/-- When the first short page occurs at step `j` (all earlier pages
have at least 1000 objects), the listing loop stops there and returns
the concatenation of the surviving entries of pages `0..j`, each page
fetched at the chained marker. -/
theorem ossListDirLoop_stops_at_short_page (fetch : String → ObjectListing) (fullKey : String) :
    ∀ (j : Nat) (m : String) (n : Nat), j < n →
      (∀ i, i < j → 1000 ≤ (fetch (markerChain fetch m i)).objects.length) →
      (fetch (markerChain fetch m j)).objects.length < 1000 →
      ossListDirLoop fetch fullKey m n =
        some (((List.range (j + 1)).map
          (fun i => ossPageMetas fullKey (fetch (markerChain fetch m i)).objects)).flatten) := by
  intro j
  induction j with
  | zero =>
    intro m n hn hfull hshort
    obtain ⟨n', rfl⟩ : ∃ n', n = n' + 1 := ⟨n - 1, by omega⟩
    simp only [markerChain] at hshort
    unfold ossListDirLoop
    rw [if_pos hshort, show List.range 1 = [0] from by decide]
    simp [markerChain]
  | succ j ih =>
    intro m n hn hfull hshort
    obtain ⟨n', rfl⟩ : ∃ n', n = n' + 1 := ⟨n - 1, by omega⟩
    have hfirst : ¬ (fetch m).objects.length < 1000 := by
      have h := hfull 0 (Nat.succ_pos j)
      simp only [markerChain] at h
      omega
    have hrec := ih ((fetch m).nextMarker) n' (by omega)
      (fun i hi => by rw [markerChain_shift]; exact hfull (i + 1) (by omega))
      (by rw [markerChain_shift]; exact hshort)
    unfold ossListDirLoop
    rw [if_neg hfirst, hrec, flatten_range_shift fetch fullKey m j]

/-- While every fetched page has at least 1000 objects, the listing
loop never stops: within any request budget it keeps carrying the
continuation token forward and yields no result. -/
theorem ossListDirLoop_no_stop (fetch : String → ObjectListing) (fullKey : String) :
    ∀ (n : Nat) (m : String),
      (∀ i, i < n → 1000 ≤ (fetch (markerChain fetch m i)).objects.length) →
      ossListDirLoop fetch fullKey m n = none := by
  intro n
  induction n with
  | zero => intro m _; rfl
  | succ n ih =>
    intro m hfull
    have hfirst : ¬ (fetch m).objects.length < 1000 := by
      have h := hfull 0 (Nat.succ_pos n)
      simp only [markerChain] at h
      omega
    have hrec := ih ((fetch m).nextMarker)
      (fun i hi => by rw [markerChain_shift]; exact hfull (i + 1) (by omega))
    unfold ossListDirLoop
    rw [if_neg hfirst, hrec]

/-- C3: the paginated listing loop of `OSSStorage.ListDir` terminates
exactly when a page with fewer than 1000 objects is returned — if the
first short page is page `j`, the result is the concatenation of the
surviving entries of pages `0..j`, each later page requested with the
marker set to the previous page's continuation token; and while every
returned page has 1000 or more objects the loop never stops (no fuel
bound suffices). -/
theorem c3_oss_listdir_pagination (fetch : String → ObjectListing)
    (fullKey m : String) (n j : Nat) :
    (j < n →
      (∀ i, i < j → 1000 ≤ (fetch (markerChain fetch m i)).objects.length) →
      (fetch (markerChain fetch m j)).objects.length < 1000 →
      ossListDirLoop fetch fullKey m n =
        some (((List.range (j + 1)).map
          (fun i => ossPageMetas fullKey (fetch (markerChain fetch m i)).objects)).flatten))
    ∧ ((∀ i, i < n → 1000 ≤ (fetch (markerChain fetch m i)).objects.length) →
      ossListDirLoop fetch fullKey m n = none) :=
  ⟨fun hn hfull hshort => ossListDirLoop_stops_at_short_page fetch fullKey j m n hn hfull hshort,
   fun hfull => ossListDirLoop_no_stop fetch fullKey n m hfull⟩

/-- A store whose every page holds one object under prefix `p`. -/
def c3fetchShort : String → ObjectListing :=
  fun _ => { objects := [{ key := "p/k.txt", size := 1, lastModified := 2 }], nextMarker := "" }

/-- A store whose every page holds 1000 objects. -/
def c3fetchFull : String → ObjectListing :=
  fun _ => { objects := List.replicate 1000 { key := "p/k.txt", size := 1, lastModified := 2 },
             nextMarker := "t" }

/-- Witness for C3: on a single short page the loop returns that page's
surviving entry; on full pages it returns nothing within the budget. -/
theorem c3_oss_listdir_pagination_witness :
    ossListDirLoop c3fetchShort "p" "" 1
      = some [{ name := "/k.txt", size := 1, modTime := 2, isDir := false,
                mimeType := "application/octet-stream" }]
    ∧ ossListDirLoop c3fetchFull "p" "" 1 = none := by
  constructor
  · have h := (c3_oss_listdir_pagination c3fetchShort "p" "" 1 0).1 (by decide)
      (fun i hi => absurd hi (Nat.not_lt_zero i)) (by decide)
    exact h.trans (by decide)
  · refine (c3_oss_listdir_pagination c3fetchFull "p" "" 1 0).2 (fun i hi => ?_)
    rw [show (c3fetchFull (markerChain c3fetchFull "" i)).objects
        = List.replicate 1000 { key := "p/k.txt", size := 1, lastModified := 2 } from rfl,
      List.length_replicate]

/-- `BatchDelete` when the single-item delete succeeds on the first `k`
paths and fails on path `k`: exactly paths `0..k` are attempted and the
failing path's error is returned. -/
theorem batchDelete_fail_fast (del : String → Option GoError) :
    ∀ (k : Nat) (paths : List String) (e : GoError),
      k < paths.length →
      (∀ i, i < k → del (paths.getD i "") = none) →
      del (paths.getD k "") = some e →
      batchDelete del paths = (paths.take (k + 1), some e) := by
  intro k
  induction k with
  | zero =>
    intro paths e hk hok hfail
    cases paths with
    | nil => simp at hk
    | cons p ps =>
      simp only [List.getD_cons_zero] at hfail
      simp [batchDelete, hfail]
  | succ k ih =>
    intro paths e hk hok hfail
    cases paths with
    | nil => simp at hk
    | cons p ps =>
      have h0 : del p = none := by simpa using hok 0 (Nat.succ_pos k)
      have hrec := ih ps e (by simpa using hk)
        (fun i hi => by simpa using hok (i + 1) (by omega))
        (by simpa using hfail)
      simp [batchDelete, h0, hrec]

/-- `BatchUpload` when the single-item upload succeeds on the first `k`
entries and fails on entry `k`: exactly entries `0..k` are attempted
and the failing entry's error is returned. -/
theorem batchUpload_fail_fast (up : String → Bytes → Option GoError) :
    ∀ (k : Nat) (files : List (String × Bytes)) (e : GoError),
      k < files.length →
      (∀ i, i < k → up (files.getD i ("", [])).1 (files.getD i ("", [])).2 = none) →
      up (files.getD k ("", [])).1 (files.getD k ("", [])).2 = some e →
      batchUpload up files = ((files.take (k + 1)).map Prod.fst, some e) := by
  intro k
  induction k with
  | zero =>
    intro files e hk hok hfail
    cases files with
    | nil => simp at hk
    | cons f fs =>
      obtain ⟨p, b⟩ := f
      simp only [List.getD_cons_zero] at hfail
      simp [batchUpload, hfail]
  | succ k ih =>
    intro files e hk hok hfail
    cases files with
    | nil => simp at hk
    | cons f fs =>
      obtain ⟨p, b⟩ := f
      have h0 : up p b = none := by simpa using hok 0 (Nat.succ_pos k)
      have hrec := ih fs e (by simpa using hk)
        (fun i hi => by simpa using hok (i + 1) (by omega))
        (by simpa using hfail)
      simp [batchUpload, h0, hrec]

/-- The `BatchDownload` loop when the single-item download yields
stream `f i` on the first `k` paths and fails on path `k`: exactly
paths `0..k` are attempted, the readers already stored in the carried
`results` map and the `k` just-opened streams are closed, no map is
returned and the failing path's error is returned. -/
theorem batchDownloadGo_fail_fast {S : Type} (dl : String → Except GoError S) :
    ∀ (k : Nat) (paths : List String) (acc : List (String × S)) (e : GoError) (f : Nat → S),
      k < paths.length →
      (∀ i, i < k → dl (paths.getD i "") = .ok (f i)) →
      dl (paths.getD k "") = .error e →
      batchDownloadGo dl acc paths =
        { invoked := paths.take (k + 1),
          closed := acc.map Prod.snd ++ (List.range k).map f,
          result := none, failure := some e } := by
  intro k
  induction k with
  | zero =>
    intro paths acc e f hk hok hfail
    cases paths with
    | nil => simp at hk
    | cons p ps =>
      simp only [List.getD_cons_zero] at hfail
      simp [batchDownloadGo, hfail]
  | succ k ih =>
    intro paths acc e f hk hok hfail
    cases paths with
    | nil => simp at hk
    | cons p ps =>
      have h0 : dl p = .ok (f 0) := by simpa using hok 0 (Nat.succ_pos k)
      have hrec := ih ps (acc ++ [(p, f 0)]) e (fun i => f (i + 1))
        (by simpa using hk)
        (fun i hi => by simpa using hok (i + 1) (by omega))
        (by simpa using hfail)
      simp only [batchDownloadGo, h0, hrec, List.take_succ_cons]
      congr 1
      rw [List.range_succ_eq_map, List.map_cons, List.map_map, List.map_append]
      simp [Function.comp_def]

/-- C8: for every batch where the single-item operation succeeds on the
entries before index `k` and fails on entry `k`, `BatchUpload` and
`BatchDelete` invoke the single-item operation on exactly the entries
up to and including `k` and return entry `k`'s error, leaving later
entries untouched; `BatchDownload` additionally closes exactly the
streams opened for the earlier successful entries and returns no
result map. -/
theorem c8_batch_fail_fast {S : Type}
    (up : String → Bytes → Option GoError) (del : String → Option GoError)
    (dl : String → Except GoError S)
    (files : List (String × Bytes)) (dpaths rpaths : List String)
    (ku kd kr : Nat) (eu ed er : GoError) (f : Nat → S)
    (hku : ku < files.length)
    (hue : ∀ i, i < ku → up (files.getD i ("", [])).1 (files.getD i ("", [])).2 = none)
    (huf : up (files.getD ku ("", [])).1 (files.getD ku ("", [])).2 = some eu)
    (hkd : kd < dpaths.length)
    (hde : ∀ i, i < kd → del (dpaths.getD i "") = none)
    (hdf : del (dpaths.getD kd "") = some ed)
    (hkr : kr < rpaths.length)
    (hre : ∀ i, i < kr → dl (rpaths.getD i "") = .ok (f i))
    (hrf : dl (rpaths.getD kr "") = .error er) :
    batchUpload up files = ((files.take (ku + 1)).map Prod.fst, some eu)
    ∧ batchDelete del dpaths = (dpaths.take (kd + 1), some ed)
    ∧ batchDownload dl rpaths =
        { invoked := rpaths.take (kr + 1), closed := (List.range kr).map f,
          result := none, failure := some er } :=
  ⟨batchUpload_fail_fast up ku files eu hku hue huf,
   batchDelete_fail_fast del kd dpaths ed hkd hde hdf,
   by simpa [batchDownload] using batchDownloadGo_fail_fast dl kr rpaths [] er f hkr hre hrf⟩

/-- Single-item upload for the C8 witness: fails on path `b`. -/
def c8up : String → Bytes → Option GoError :=
  fun p _ => if p = "b" then some .ioError else none

/-- Single-item delete for the C8 witness: fails on path `y`. -/
def c8del : String → Option GoError :=
  fun p => if p = "y" then some .notFound else none

/-- Single-item download for the C8 witness: fails on path `q`,
otherwise opens stream `7`. -/
def c8dl : String → Except GoError Nat :=
  fun p => if p = "q" then .error (.remote "boom") else .ok 7

/-- Witness for C8 on two-entry batches failing at the second entry. -/
theorem c8_batch_fail_fast_witness :
    batchUpload c8up [("a", [1]), ("b", [2])] = (["a", "b"], some .ioError)
    ∧ batchDelete c8del ["x", "y"] = (["x", "y"], some .notFound)
    ∧ batchDownload c8dl ["s", "q"]
        = { invoked := ["s", "q"], closed := [7], result := none,
            failure := some (.remote "boom") } := by
  have h := c8_batch_fail_fast c8up c8del c8dl [("a", [1]), ("b", [2])] ["x", "y"] ["s", "q"]
    1 1 1 .ioError .notFound (.remote "boom") (fun _ => 7)
    (by decide) (fun i hi => by cases i with | zero => rfl | succ n => omega) (by rfl)
    (by decide) (fun i hi => by cases i with | zero => rfl | succ n => omega) (by rfl)
    (by decide) (fun i hi => by cases i with | zero => rfl | succ n => omega) (by rfl)
  refine ⟨h.1.trans (by decide), h.2.1.trans (by decide), h.2.2.trans ?_⟩
  simp [List.range_succ_eq_map]

/-- Every metadata entry built from one listing page has `IsDir` false
and the generic MIME type. -/
theorem mem_ossPageMetas {fullKey : String} {objs : List OSSObject} {meta : FileMetadata}
    (h : meta ∈ ossPageMetas fullKey objs) :
    meta.isDir = false ∧ meta.mimeType = "application/octet-stream" := by
  unfold ossPageMetas at h
  rw [List.mem_map] at h
  obtain ⟨o, -, rfl⟩ := h
  exact ⟨rfl, rfl⟩

/-- Every metadata entry a terminating run of the listing loop returns
has `IsDir` false and the generic MIME type. -/
theorem ossListDirLoop_mem {fetch : String → ObjectListing} {fullKey : String} :
    ∀ (fuel : Nat) (marker : String) (metas : List FileMetadata) (meta : FileMetadata),
      ossListDirLoop fetch fullKey marker fuel = some metas → meta ∈ metas →
      meta.isDir = false ∧ meta.mimeType = "application/octet-stream" := by
  intro fuel
  induction fuel with
  | zero =>
    intro marker metas meta h
    simp [ossListDirLoop] at h
  | succ n ih =>
    intro marker metas meta h hmem
    unfold ossListDirLoop at h
    by_cases hlt : (fetch marker).objects.length < 1000
    · rw [if_pos hlt] at h
      injection h with h
      subst h
      exact mem_ossPageMetas hmem
    · rw [if_neg hlt] at h
      rcases heq : ossListDirLoop fetch fullKey (fetch marker).nextMarker n with - | rest
      · rw [heq] at h
        exact absurd h (by simp)
      · rw [heq] at h
        injection h with h
        subst h
        rcases List.mem_append.mp hmem with hmem | hmem
        · exact mem_ossPageMetas hmem
        · exact ih (fetch marker).nextMarker rest meta heq hmem

/-- C10: every `FileMetadata` entry returned by the OSS backend's
`ListDir` has `IsDir` false and MIME type `application/octet-stream`,
whatever the listed keys look like. -/
theorem c10_oss_listdir_flat_metadata (fetch : String → ObjectListing)
    (baseDir dirPath : String) (fuel : Nat) (metas : List FileMetadata)
    (h : ossListDir fetch baseDir dirPath fuel = some metas) :
    ∀ meta ∈ metas, meta.isDir = false ∧ meta.mimeType = "application/octet-stream" := by
  intro meta hmem
  unfold ossListDir at h
  exact ossListDirLoop_mem fuel "" metas meta h hmem

/-- A one-page store holding an object whose key ends in the path
separator, for the C10 witness. -/
def c10fetch : String → ObjectListing :=
  fun _ => { objects := [{ key := "d/sub/", size := 0, lastModified := 0 }], nextMarker := "" }

/-- The entry `OSSStorage.ListDir` builds from that page. -/
def c10meta : FileMetadata :=
  { name := "/sub/", size := 0, modTime := 0, isDir := false,
    mimeType := "application/octet-stream" }

/-- Witness for C10: the entry produced for a key ending in the
separator is still reported with `IsDir` false and the generic MIME
type. -/
theorem c10_oss_listdir_flat_metadata_witness :
    c10meta.isDir = false ∧ c10meta.mimeType = "application/octet-stream" :=
  c10_oss_listdir_flat_metadata c10fetch "" "d" 1 [c10meta] (by decide) c10meta (by decide)

end StorageModel
